import Mathlib

/-!
Shallow embedding of the edge-statistics module (xgi/stats/edgestats.py) and
of the centrality CLI harness (centrality/test_single_centrality.py).

Python dicts are modelled as association lists kept in insertion order;
subscripting a dict is a fallible operation (KeyError on an absent key), so
the functions that iterate a bunch and subscript return an Except value.
The external hypergraph-analysis library (the xgi package itself) is not part
of the repository; its routines are modelled as the fields of an abstract
record, so every theorem about the wrappers holds for every possible
behaviour of the delegated routines.
-/

deriving instance DecidableEq for Except

namespace XgiSpec

/-- Python runtime errors the embedded functions can signal: KeyError from
subscripting a dict with an absent key, ValueError raised explicitly. -/
inductive PyErr where
  | keyError (k : Nat)
  | valueError (msg : String)
deriving DecidableEq

/-- The part of an xgi.Hypergraph that the edge statistics read: the private
dicts net._edge (edge id to list of member nodes), net._node (node id to list
of incident edge ids) and net._edge_attr (edge id to attribute record).
Attribute values have an arbitrary type V. -/
structure Hypergraph (V : Type) where
  edge : List (Nat × List Nat)
  node : List (Nat × List Nat)
  edgeAttr : List (Nat × List (String × V))

/-- Subscripting a Python dict: d[k] raises KeyError when k is absent. -/
def dictGet {β : Type} (d : List (Nat × β)) (k : Nat) : Except PyErr β :=
  match List.lookup k d with
  | some v => Except.ok v
  | none => Except.error (PyErr.keyError k)

/-- Left-to-right evaluation of a Python comprehension whose body may raise:
stops at the first error, otherwise collects the results in order. -/
def exceptMap {α β : Type} (f : α → Except PyErr β) : List α → Except PyErr (List β)
  | [] => Except.ok []
  | a :: as =>
    match f a with
    | Except.error err => Except.error err
    | Except.ok b => (exceptMap f as).map (fun bs => b :: bs)

/-- The attr argument of attrs: a Python value that is a string, None, or
anything else. -/
inductive AttrArg where
  | str (a : String)
  | pyNone
  | other
deriving DecidableEq

/-- The two shapes attrs can return: a per-edge single-attribute mapping, or
a per-edge full attribute record. -/
inductive AttrsRet (V : Type) where
  | single (m : List (Nat × V))
  | full (m : List (Nat × List (String × V)))
deriving DecidableEq

/-- Target argument of the delegated xgi routines; the wrappers either pass
target as the string edge, or omit the argument (modelled as none). -/
inductive Target where
  | node
  | edge
deriving DecidableEq

/-- The delegated routines of the external xgi package, as called by
edgestats.py: each is an arbitrary function of the hypergraph and of the
arguments the wrapper passes.  R is the type of centrality values. -/
structure XgiLib (V R : Type) where
  degree_centrality : Hypergraph V → Option Target → List (Nat × R)
  line_expansion_degree_centrality : Hypergraph V → List (Nat × R)
  closeness_centrality : Hypergraph V → Option Target → List (Nat × R)
  betweenness_centrality : Hypergraph V → Option Target → List (Nat × R)
  harmonic_centrality : Hypergraph V → Option Target → List (Nat × R)
  eigenvector_centrality : Hypergraph V → Option Target → Nat → Rat → List (Nat × R)
  pagerank_centrality : Hypergraph V → Option Target → Rat → Nat → Rat → List (Nat × R)
  hypercoreness : Hypergraph V → Option Target → List (Nat × R)
  node_edge_centrality : Hypergraph V → (Rat → Rat) → (Rat → Rat) → (Rat → Rat) →
    (Rat → Rat) → Nat → Rat → List (Nat × R) × List (Nat × R)

/-- The dict comprehension shared by every centrality wrapper in
edgestats.py, ranging over the keys of the computed mapping c and keeping
those that are in bunch. -/
def restrict {R : Type} (c : List (Nat × R)) (bunch : List Nat) : List (Nat × R) :=
  c.filter (fun p => bunch.contains p.1)

namespace EdgeStats

/-- edgestats.attrs: for a string attr, map each e of bunch to
net._edge_attr[e].get(attr, missing); for attr None, map each e to its full
record net._edge_attr[e]; otherwise raise ValueError. -/
def attrs {V : Type} (net : Hypergraph V) (bunch : List Nat) (attr : AttrArg)
    (missing : V) : Except PyErr (AttrsRet V) :=
  match attr with
  | AttrArg.str a =>
      (exceptMap (fun e => (dictGet net.edgeAttr e).map
        (fun d => (e, (List.lookup a d).getD missing))) bunch).map AttrsRet.single
  | AttrArg.pyNone =>
      (exceptMap (fun e => (dictGet net.edgeAttr e).map
        (fun d => (e, d))) bunch).map AttrsRet.full
  | AttrArg.other => Except.error (PyErr.valueError "\"attr\" must be str or None")

/-- edgestats.order: with degree None, map e to len(net._edge[e]) - 1; with a
degree filter, map e to sum(len(net._node[n]) == degree for n in
net._edge[e]) - 1.  The sums of Python booleans are modelled as sums of 0/1
integers. -/
def order {V : Type} (net : Hypergraph V) (bunch : List Nat) (degree : Option Nat) :
    Except PyErr (List (Nat × Int)) :=
  match degree with
  | none =>
      exceptMap (fun e => (dictGet net.edge e).map
        (fun mem => (e, (mem.length : Int) - 1))) bunch
  | some d =>
      exceptMap (fun e => (dictGet net.edge e).bind (fun mem =>
        (exceptMap (fun n => (dictGet net.node n).map
          (fun inc => if inc.length = d then (1 : Int) else 0)) mem).map
          (fun bs => (e, bs.sum - 1)))) bunch

/-- edgestats.size: with degree None, map e to len(net._edge[e]); with a
degree filter, map e to sum(len(net._node[n]) == degree for n in
net._edge[e]). -/
def size {V : Type} (net : Hypergraph V) (bunch : List Nat) (degree : Option Nat) :
    Except PyErr (List (Nat × Int)) :=
  match degree with
  | none =>
      exceptMap (fun e => (dictGet net.edge e).map
        (fun mem => (e, (mem.length : Int)))) bunch
  | some d =>
      exceptMap (fun e => (dictGet net.edge e).bind (fun mem =>
        (exceptMap (fun n => (dictGet net.node n).map
          (fun inc => if inc.length = d then (1 : Int) else 0)) mem).map
          (fun bs => (e, bs.sum)))) bunch

/-- edgestats.node_edge_centrality: unpacks the pair returned by
xgi.node_edge_centrality(net, f, g, phi, psi, max_iter, tol), keeps the edge
side, and restricts it to bunch. -/
def node_edge_centrality {V R : Type} (lib : XgiLib V R) (net : Hypergraph V)
    (bunch : List Nat) (f g phi psi : Rat → Rat) (max_iter : Nat) (tol : Rat) :
    List (Nat × R) :=
  restrict (lib.node_edge_centrality net f g phi psi max_iter tol).2 bunch

/-- edgestats.degree_centrality: calls xgi.degree_centrality(net,
target=edge) and restricts to bunch. -/
def degree_centrality {V R : Type} (lib : XgiLib V R) (net : Hypergraph V)
    (bunch : List Nat) : List (Nat × R) :=
  restrict (lib.degree_centrality net (some Target.edge)) bunch

/-- edgestats.line_expansion_degree_centrality: calls
xgi.line_expansion_degree_centrality(net) with no target argument and
restricts to bunch. -/
def line_expansion_degree_centrality {V R : Type} (lib : XgiLib V R)
    (net : Hypergraph V) (bunch : List Nat) : List (Nat × R) :=
  restrict (lib.line_expansion_degree_centrality net) bunch

/-- edgestats.closeness_centrality: calls xgi.closeness_centrality(net,
target=edge) and restricts to bunch. -/
def closeness_centrality {V R : Type} (lib : XgiLib V R) (net : Hypergraph V)
    (bunch : List Nat) : List (Nat × R) :=
  restrict (lib.closeness_centrality net (some Target.edge)) bunch

/-- edgestats.betweenness_centrality: calls xgi.betweenness_centrality(net,
target=edge) and restricts to bunch. -/
def betweenness_centrality {V R : Type} (lib : XgiLib V R) (net : Hypergraph V)
    (bunch : List Nat) : List (Nat × R) :=
  restrict (lib.betweenness_centrality net (some Target.edge)) bunch

/-- edgestats.harmonic_centrality: calls xgi.harmonic_centrality(net,
target=edge) and restricts to bunch. -/
def harmonic_centrality {V R : Type} (lib : XgiLib V R) (net : Hypergraph V)
    (bunch : List Nat) : List (Nat × R) :=
  restrict (lib.harmonic_centrality net (some Target.edge)) bunch

/-- edgestats.eigenvector_centrality: calls xgi.eigenvector_centrality(net,
target=edge, max_iter, tol) and restricts to bunch. -/
def eigenvector_centrality {V R : Type} (lib : XgiLib V R) (net : Hypergraph V)
    (bunch : List Nat) (max_iter : Nat) (tol : Rat) : List (Nat × R) :=
  restrict (lib.eigenvector_centrality net (some Target.edge) max_iter tol) bunch

/-- edgestats.pagerank_centrality: despite its name and its alpha parameter,
its body calls xgi.eigenvector_centrality(net, target=edge, max_iter, tol)
and restricts to bunch; alpha is never used. -/
def pagerank_centrality {V R : Type} (lib : XgiLib V R) (net : Hypergraph V)
    (bunch : List Nat) (alpha : Rat) (max_iter : Nat) (tol : Rat) : List (Nat × R) :=
  restrict (lib.eigenvector_centrality net (some Target.edge) max_iter tol) bunch

/-- edgestats.hypercoreness: calls xgi.hypercoreness(net, target=edge) and
restricts to bunch. -/
def hypercoreness {V R : Type} (lib : XgiLib V R) (net : Hypergraph V)
    (bunch : List Nat) : List (Nat × R) :=
  restrict (lib.hypercoreness net (some Target.edge)) bunch

end EdgeStats

/-- The node-mode measure names accepted by the if/elif chain of
test_single_centrality.py. -/
def nodeMeasures : List String :=
  ["degree", "neighbor_degree", "closeness", "betweenness", "harmonic",
   "eigenvector", "pagerank", "uplift_eigenvector"]

/-- The edge-mode measure names accepted by the if/elif chain of
test_single_centrality.py. -/
def edgeMeasures : List String :=
  ["degree", "closeness", "betweenness", "harmonic", "eigenvector", "pagerank"]

/-- Whether the measure string hits one of the if/elif branches of the
selected target mode. -/
def validMeasure (edgeFlag : Bool) (measure : String) : Bool :=
  if edgeFlag then edgeMeasures.contains measure else nodeMeasures.contains measure

/-- Observable outcome of a run of the CLI harness: an XGIError carrying its
label and the offending measure string, an assertion failure, or normal
completion carrying the runtime-log line prefix and the output file path. -/
inductive RunResult where
  | xgiError (label : String) (measure : String)
  | assertFail
  | done (runtimeLine : String) (outFile : String)
deriving DecidableEq

/-- The measure_name string built by the harness. -/
def measureName (edgeFlag : Bool) (measure : String) : String :=
  (if edgeFlag then "edge_" else "node_") ++ measure

/-- The main body of test_single_centrality.py after the dataset is loaded:
dispatch on the edge flag and the measure string (an unknown measure raises
XGIError before anything is written), then assert that the sum of the
computed centralities is strictly below 1 + 1e-3 and strictly above
1 - 1e-3, then append the runtime line and write the values file.  The
computed numpy array is abstracted as the list cent edgeFlag measure; wall
clock timing is elided from the runtime line. -/
def runHarness (dataset measure : String) (edgeFlag : Bool)
    (cent : Bool → String → List Rat) : RunResult :=
  if validMeasure edgeFlag measure then
    let s := (cent edgeFlag measure).sum
    let tolerance : Rat := 1 / 1000
    if s < 1 + tolerance then
      if 1 - tolerance < s then
        RunResult.done (dataset ++ " " ++ measureName edgeFlag measure)
          ("values/" ++ dataset ++ "/" ++ measureName edgeFlag measure ++ ".npy")
      else RunResult.assertFail
    else RunResult.assertFail
  else
    RunResult.xgiError
      (if edgeFlag then "Invalid centrality measure for edge: "
       else "Invalid centrality measure for node: ")
      measure

/-- Modelled from the spec: the reading of degree_centrality in which the
wrapper calls the external degree routine with no target argument, stated in
order to compare it with the wrapper translated from the source. -/
def degree_centrality_claim {V R : Type} (lib : XgiLib V R) (net : Hypergraph V)
    (bunch : List Nat) : List (Nat × R) :=
  restrict (lib.degree_centrality net none) bunch

/-- Modelled from the spec: the reading of pagerank_centrality in which the
wrapper delegates to the same-named external pagerank routine with the edge
target, stated in order to compare it with the wrapper translated from the
source. -/
def pagerank_centrality_claim {V R : Type} (lib : XgiLib V R) (net : Hypergraph V)
    (bunch : List Nat) (alpha : Rat) (max_iter : Nat) (tol : Rat) : List (Nat × R) :=
  restrict (lib.pagerank_centrality net (some Target.edge) alpha max_iter tol) bunch

/-- The example hypergraph of the module docstring, with edges
0 = [1,2,3], 1 = [2,3,4,5], 2 = [3,4,5]; node memberships derived
accordingly, and empty attribute records. -/
def exNet : Hypergraph Nat :=
  ⟨[(0, [1, 2, 3]), (1, [2, 3, 4, 5]), (2, [3, 4, 5])],
   [(1, [0]), (2, [0, 1]), (3, [0, 1, 2]), (4, [1, 2]), (5, [1, 2])],
   [(0, []), (1, []), (2, [])]⟩

/-- A two-edge hypergraph where edge 0 carries the attribute color with
value 3 and edge 1 has an empty attribute record. -/
def exAttrNet : Hypergraph Nat :=
  ⟨[(0, [1]), (1, [1])], [(1, [0, 1])], [(0, [("color", 3)]), (1, [])]⟩

/-- A concrete instantiation of the delegated library whose routines react
to the arguments they receive, used to distinguish the wrappers from
readings that would pass different arguments. -/
def cexLib : XgiLib Nat Int :=
  ⟨fun _ t => if t = some Target.edge then [(0, 7)] else [(0, 3)],
   fun _ => [(0, 4)],
   fun _ _ => [(0, 11)],
   fun _ _ => [(0, 12)],
   fun _ _ => [(0, 13)],
   fun _ _ _ _ => [(0, 5)],
   fun _ _ _ _ _ => [(0, 9)],
   fun _ _ => [(0, 14)],
   fun _ _ _ _ _ _ _ => ([(0, 15)], [(0, 16)])⟩

/-! Helper lemmas about association-list lookup and about Except. -/

theorem lookup_some_mem_fst {β : Type} {l : List (Nat × β)} {k : Nat} {v : β}
    (h : List.lookup k l = some v) : k ∈ l.map Prod.fst := by
  induction l with
  | nil => simp [List.lookup] at h
  | cons p tl ih =>
    obtain ⟨a, b⟩ := p
    by_cases hk : k = a
    · subst hk; simp
    · simp only [List.lookup, beq_false_of_ne hk] at h
      simp only [List.map_cons, List.mem_cons]
      exact Or.inr (ih h)

theorem lookup_none_of_not_mem_fst {β : Type} {l : List (Nat × β)} {k : Nat}
    (h : k ∉ l.map Prod.fst) : List.lookup k l = none := by
  cases hl : List.lookup k l with
  | none => rfl
  | some v => exact absurd (lookup_some_mem_fst hl) h

theorem lookup_isSome_of_mem_fst {β : Type} {l : List (Nat × β)} {k : Nat}
    (h : k ∈ l.map Prod.fst) : ∃ v, List.lookup k l = some v := by
  induction l with
  | nil => simp at h
  | cons p tl ih =>
    obtain ⟨a, b⟩ := p
    by_cases hk : k = a
    · subst hk; exact ⟨b, by simp [List.lookup]⟩
    · have h2 : k ∈ tl.map Prod.fst := by
        simp only [List.map_cons, List.mem_cons] at h
        rcases h with h1 | h1
        · exact absurd h1 hk
        · exact h1
      obtain ⟨v, hv⟩ := ih h2
      exact ⟨v, by simp [List.lookup, beq_false_of_ne hk, hv]⟩

theorem except_map_eq_ok {α β : Type} {x : Except PyErr α} {f : α → β} {b : β} :
    x.map f = Except.ok b ↔ ∃ a, x = Except.ok a ∧ f a = b := by
  cases x <;> simp [Except.map]

theorem except_map_eq_error {α β : Type} {x : Except PyErr α} {f : α → β} {err : PyErr} :
    x.map f = Except.error err ↔ x = Except.error err := by
  cases x <;> simp [Except.map]

theorem except_bind_eq_ok {α β : Type} {x : Except PyErr α} {f : α → Except PyErr β}
    {b : β} : x.bind f = Except.ok b ↔ ∃ a, x = Except.ok a ∧ f a = Except.ok b := by
  cases x <;> simp [Except.bind]

theorem except_bind_eq_error {α β : Type} {x : Except PyErr α} {f : α → Except PyErr β}
    {err : PyErr} : x.bind f = Except.error err ↔
      x = Except.error err ∨ ∃ a, x = Except.ok a ∧ f a = Except.error err := by
  cases x <;> simp [Except.bind]

theorem dictGet_ok {β : Type} {d : List (Nat × β)} {k : Nat} {v : β} :
    dictGet d k = Except.ok v ↔ List.lookup k d = some v := by
  unfold dictGet
  split <;> rename_i h <;> simp [h]

theorem dictGet_error {β : Type} {d : List (Nat × β)} {k : Nat} {err : PyErr}
    (h : dictGet d k = Except.error err) : err = PyErr.keyError k := by
  unfold dictGet at h
  split at h
  · simp at h
  · injection h with h2
    exact h2.symm

theorem dictGet_error_of_lookup_none {β : Type} {d : List (Nat × β)} {k : Nat}
    (h : List.lookup k d = none) : dictGet d k = Except.error (PyErr.keyError k) := by
  unfold dictGet
  rw [h]

/-! Helper lemmas about exceptMap, the evaluation of a fallible Python
comprehension. -/

theorem exceptMap_error_mem {α β : Type} {f : α → Except PyErr β} {l : List α}
    {err : PyErr} (h : exceptMap f l = Except.error err) :
    ∃ x ∈ l, f x = Except.error err := by
  induction l with
  | nil => simp [exceptMap] at h
  | cons a as ih =>
    rw [exceptMap] at h
    cases hf : f a with
    | error e =>
      simp only [hf] at h
      injection h with h2
      exact ⟨a, by simp, by rw [hf, h2]⟩
    | ok b =>
      simp only [hf] at h
      rw [except_map_eq_error] at h
      obtain ⟨x, hx, hfx⟩ := ih h
      exact ⟨x, by simp [hx], hfx⟩

theorem exceptMap_ok_forall {α β : Type} {f : α → Except PyErr β} {l : List α}
    {m : List β} (h : exceptMap f l = Except.ok m) :
    ∀ x ∈ l, ∃ b, f x = Except.ok b := by
  induction l generalizing m with
  | nil => simp
  | cons a as ih =>
    rw [exceptMap] at h
    cases hf : f a with
    | error e => simp [hf] at h
    | ok b =>
      simp only [hf] at h
      rw [except_map_eq_ok] at h
      obtain ⟨m2, hm2, _⟩ := h
      intro x hx
      rcases List.mem_cons.mp hx with rfl | hx2
      · exact ⟨b, hf⟩
      · exact ih hm2 x hx2

theorem exceptMap_ok_of_forall {α β : Type} {f : α → Except PyErr β} {l : List α}
    (h : ∀ x ∈ l, ∃ b, f x = Except.ok b) : ∃ m, exceptMap f l = Except.ok m := by
  induction l with
  | nil => exact ⟨[], rfl⟩
  | cons a as ih =>
    obtain ⟨b, hb⟩ := h a (by simp)
    obtain ⟨m2, hm2⟩ := ih (fun x hx => h x (by simp [hx]))
    refine ⟨b :: m2, ?_⟩
    rw [exceptMap]
    simp only [hb, hm2, Except.map]

theorem exceptMap_ok_forall2 {α β : Type} {f : α → Except PyErr β} {l : List α}
    {m : List β} (h : exceptMap f l = Except.ok m) :
    List.Forall₂ (fun x b => f x = Except.ok b) l m := by
  induction l generalizing m with
  | nil =>
    rw [exceptMap] at h
    injection h with h2
    rw [h2.symm]
    exact List.Forall₂.nil
  | cons a as ih =>
    rw [exceptMap] at h
    cases hf : f a with
    | error e => simp [hf] at h
    | ok b =>
      simp only [hf] at h
      rw [except_map_eq_ok] at h
      obtain ⟨m2, hm2, hm⟩ := h
      rw [hm.symm]
      exact List.Forall₂.cons hf (ih hm2)

theorem exceptMap_ok_keys {β : Type} {f : Nat → Except PyErr (Nat × β)} {l : List Nat}
    {m : List (Nat × β)} (hkey : ∀ e p, f e = Except.ok p → p.1 = e)
    (h : exceptMap f l = Except.ok m) : m.map Prod.fst = l := by
  induction l generalizing m with
  | nil =>
    rw [exceptMap] at h
    injection h with h2
    rw [h2.symm]
    rfl
  | cons a as ih =>
    rw [exceptMap] at h
    cases hf : f a with
    | error e => simp [hf] at h
    | ok p =>
      simp only [hf] at h
      rw [except_map_eq_ok] at h
      obtain ⟨m2, hm2, hm⟩ := h
      rw [hm.symm]
      simp only [List.map_cons, hkey a p hf, ih hm2]

theorem exceptMap_ok_lookup {β : Type} {f : Nat → Except PyErr (Nat × β)} {l : List Nat}
    {m : List (Nat × β)} (hkey : ∀ e p, f e = Except.ok p → p.1 = e)
    (h : exceptMap f l = Except.ok m) {e : Nat} (he : e ∈ l) :
    ∃ b, f e = Except.ok (e, b) ∧ List.lookup e m = some b := by
  induction l generalizing m with
  | nil => simp at he
  | cons a as ih =>
    rw [exceptMap] at h
    cases hf : f a with
    | error err => simp [hf] at h
    | ok p =>
      simp only [hf] at h
      rw [except_map_eq_ok] at h
      obtain ⟨m2, hm2, hm⟩ := h
      have hp1 : p.1 = a := hkey a p hf
      by_cases hea : e = a
      · subst hea
        obtain ⟨p1, p2⟩ := p
        simp only at hp1
        subst hp1
        refine ⟨p2, hf, ?_⟩
        rw [hm.symm]
        simp [List.lookup]
      · have he2 : e ∈ as := by
          rcases List.mem_cons.mp he with h1 | h1
          · exact absurd h1 hea
          · exact h1
        obtain ⟨b, hb, hlb⟩ := ih hm2 he2
        refine ⟨b, hb, ?_⟩
        rw [hm.symm]
        obtain ⟨p1, p2⟩ := p
        simp only at hp1
        subst hp1
        simp [List.lookup, beq_false_of_ne hea, hlb]

/-! Unfolding equations for the statistic accessors, and lemmas tying
the per-element entry functions to their keys. -/

theorem order_none_def {V : Type} (net : Hypergraph V) (bunch : List Nat) :
    EdgeStats.order net bunch none =
      exceptMap (fun e => (dictGet net.edge e).map
        (fun mem => (e, (mem.length : Int) - 1))) bunch := rfl

theorem order_some_def {V : Type} (net : Hypergraph V) (bunch : List Nat) (d : Nat) :
    EdgeStats.order net bunch (some d) =
      exceptMap (fun e => (dictGet net.edge e).bind (fun mem =>
        (exceptMap (fun n => (dictGet net.node n).map
          (fun inc => if inc.length = d then (1 : Int) else 0)) mem).map
          (fun bs => (e, bs.sum - 1)))) bunch := rfl

theorem size_none_def {V : Type} (net : Hypergraph V) (bunch : List Nat) :
    EdgeStats.size net bunch none =
      exceptMap (fun e => (dictGet net.edge e).map
        (fun mem => (e, (mem.length : Int)))) bunch := rfl

theorem size_some_def {V : Type} (net : Hypergraph V) (bunch : List Nat) (d : Nat) :
    EdgeStats.size net bunch (some d) =
      exceptMap (fun e => (dictGet net.edge e).bind (fun mem =>
        (exceptMap (fun n => (dictGet net.node n).map
          (fun inc => if inc.length = d then (1 : Int) else 0)) mem).map
          (fun bs => (e, bs.sum)))) bunch := rfl

theorem attrs_str_def {V : Type} (net : Hypergraph V) (bunch : List Nat)
    (a : String) (M : V) :
    EdgeStats.attrs net bunch (AttrArg.str a) M =
      (exceptMap (fun e => (dictGet net.edgeAttr e).map
        (fun d => (e, (List.lookup a d).getD M))) bunch).map AttrsRet.single := rfl

theorem attrs_pyNone_def {V : Type} (net : Hypergraph V) (bunch : List Nat) (M : V) :
    EdgeStats.attrs net bunch AttrArg.pyNone M =
      (exceptMap (fun e => (dictGet net.edgeAttr e).map
        (fun d => (e, d))) bunch).map AttrsRet.full := rfl

theorem entry_key {β γ : Type} {x : Except PyErr β} {g : β → γ} {e : Nat}
    {p : Nat × γ} (h : x.map (fun y => (e, g y)) = Except.ok p) : p.1 = e := by
  rw [except_map_eq_ok] at h
  obtain ⟨y, _, hy⟩ := h
  rw [hy.symm]

theorem entry_key_bind {β γ δ : Type} {x : Except PyErr β}
    {inner : β → Except PyErr γ} {g : β → γ → δ} {e : Nat} {p : Nat × δ}
    (h : x.bind (fun y => (inner y).map (fun z => (e, g y z))) = Except.ok p) :
    p.1 = e := by
  rw [except_bind_eq_ok] at h
  obtain ⟨y, _, hy⟩ := h
  exact entry_key hy

theorem lookup_some_pair_mem {β : Type} {l : List (Nat × β)} {k : Nat} {v : β}
    (h : List.lookup k l = some v) : (k, v) ∈ l := by
  induction l with
  | nil => simp [List.lookup] at h
  | cons p tl ih =>
    obtain ⟨a, b⟩ := p
    by_cases hk : k = a
    · subst hk
      simp [List.lookup] at h
      simp [h.symm]
    · simp only [List.lookup, beq_false_of_ne hk] at h
      exact List.mem_cons_of_mem _ (ih h)

theorem exceptMap_not_ok {α β : Type} (f : α → Except PyErr β) {l : List α} {x : α}
    (hx : x ∈ l) (hfx : ∀ b, f x ≠ Except.ok b) :
    ∃ err, exceptMap f l = Except.error err ∧ ∃ y ∈ l, f y = Except.error err := by
  cases h : exceptMap f l with
  | ok m =>
    obtain ⟨b, hbb⟩ := exceptMap_ok_forall h x hx
    exact absurd hbb (hfx b)
  | error err => exact ⟨err, rfl, exceptMap_error_mem h⟩

theorem restrict_keys {R : Type} (c : List (Nat × R)) (bunch : List Nat) (k : Nat) :
    k ∈ (restrict c bunch).map Prod.fst ↔ k ∈ bunch ∧ k ∈ c.map Prod.fst := by
  simp only [restrict, List.mem_map, List.mem_filter]
  constructor
  · rintro ⟨p, ⟨hpc, hpb⟩, hpk⟩
    subst hpk
    exact ⟨by simpa using hpb, ⟨p, hpc, rfl⟩⟩
  · rintro ⟨hkb, p, hpc, hpk⟩
    subst hpk
    exact ⟨p, ⟨hpc, by simpa using hkb⟩, rfl⟩

theorem restrict_lookup_none {R : Type} (c : List (Nat × R)) (bunch : List Nat)
    {b : Nat} (hb : b ∉ c.map Prod.fst) :
    List.lookup b (restrict c bunch) = none := by
  apply lookup_none_of_not_mem_fst
  intro hmem
  exact hb ((restrict_keys c bunch b).mp hmem).2

theorem degree_filter_sum {V : Type} (net : Hypergraph V) (d : Nat) {mem : List Nat}
    {bs : List Int}
    (h : List.Forall₂ (fun n b => (dictGet net.node n).map
        (fun inc => if inc.length = d then (1 : Int) else 0) = Except.ok b) mem bs) :
    bs.sum =
      (mem.countP (fun n => ((List.lookup n net.node).getD []).length == d) : Int) := by
  induction h with
  | nil => simp
  | @cons a b l1 l2 hab htl ih =>
    rw [except_map_eq_ok] at hab
    obtain ⟨inc, hinc, hb⟩ := hab
    rw [dictGet_ok] at hinc
    rw [List.sum_cons, ih, List.countP_cons]
    rw [hb.symm]
    simp only [hinc, Option.getD_some]
    by_cases hd : inc.length = d
    · simp [hd]
      ring
    · simp [hd]

/-! Claim theorems. -/

/-- Claim C1: for every hypergraph, bunch, alpha, max_iter and tol, the
edge-targeted pagerank_centrality returns exactly the same mapping as
eigenvector_centrality; both call the external eigenvector routine with the
edge target, so the result does not depend on alpha. -/
theorem C1_pagerank_is_eigenvector {V R : Type} (lib : XgiLib V R)
    (net : Hypergraph V) (bunch : List Nat) (alpha : Rat) (max_iter : Nat)
    (tol : Rat) :
    EdgeStats.pagerank_centrality lib net bunch alpha max_iter tol =
        EdgeStats.eigenvector_centrality lib net bunch max_iter tol ∧
      EdgeStats.pagerank_centrality lib net bunch alpha max_iter tol =
        restrict (lib.eigenvector_centrality net (some Target.edge) max_iter tol)
          bunch :=
  ⟨rfl, rfl⟩

/-- Claim C3 as stated is false at a concrete library instantiation:
degree_centrality passes the edge target to the external degree routine
rather than no target, and pagerank_centrality calls the external
eigenvector routine rather than the same-named pagerank routine. -/
theorem C3_counterexample :
    EdgeStats.degree_centrality cexLib exNet [0] ≠
        degree_centrality_claim cexLib exNet [0] ∧
      EdgeStats.pagerank_centrality cexLib exNet [0] 1 1 1 ≠
        pagerank_centrality_claim cexLib exNet [0] 1 1 1 := by
  constructor <;> decide

/-- Claim C3 amended: each edge-targeted centrality accessor delegates to an
external routine and restricts the result to bunch; closeness, betweenness,
harmonic, eigenvector and hypercoreness call the same-named routine with the
edge target, degree also passes the edge target, line_expansion_degree
passes no target argument, and pagerank calls the eigenvector routine with
the edge target. -/
theorem C3_delegation {V R : Type} (lib : XgiLib V R) (net : Hypergraph V)
    (bunch : List Nat) (alpha : Rat) (max_iter : Nat) (tol : Rat) :
    EdgeStats.degree_centrality lib net bunch =
        restrict (lib.degree_centrality net (some Target.edge)) bunch ∧
      EdgeStats.closeness_centrality lib net bunch =
        restrict (lib.closeness_centrality net (some Target.edge)) bunch ∧
      EdgeStats.betweenness_centrality lib net bunch =
        restrict (lib.betweenness_centrality net (some Target.edge)) bunch ∧
      EdgeStats.harmonic_centrality lib net bunch =
        restrict (lib.harmonic_centrality net (some Target.edge)) bunch ∧
      EdgeStats.line_expansion_degree_centrality lib net bunch =
        restrict (lib.line_expansion_degree_centrality net) bunch ∧
      EdgeStats.eigenvector_centrality lib net bunch max_iter tol =
        restrict (lib.eigenvector_centrality net (some Target.edge) max_iter tol)
          bunch ∧
      EdgeStats.pagerank_centrality lib net bunch alpha max_iter tol =
        restrict (lib.eigenvector_centrality net (some Target.edge) max_iter tol)
          bunch ∧
      EdgeStats.hypercoreness lib net bunch =
        restrict (lib.hypercoreness net (some Target.edge)) bunch :=
  ⟨rfl, rfl, rfl, rfl, rfl, rfl, rfl, rfl⟩

/-- Claim C5: for every supported measure, the harness proceeds to the
runtime line and the output file exactly when the sum of the computed
centralities is within 1e-3 of 1, and otherwise stops with an assertion
failure. -/
theorem C5_normalization_assert (dataset measure : String) (edgeFlag : Bool)
    (cent : Bool → String → List Rat)
    (hv : validMeasure edgeFlag measure = true) :
    (abs ((cent edgeFlag measure).sum - 1) < 1 / 1000 →
        runHarness dataset measure edgeFlag cent =
          RunResult.done (dataset ++ " " ++ measureName edgeFlag measure)
            ("values/" ++ dataset ++ "/" ++ measureName edgeFlag measure ++
              ".npy")) ∧
      (¬ abs ((cent edgeFlag measure).sum - 1) < 1 / 1000 →
        runHarness dataset measure edgeFlag cent = RunResult.assertFail) := by
  constructor <;> intro h
  · rw [abs_sub_lt_iff] at h
    simp only [runHarness, hv, if_true]
    rw [if_pos (by linarith [h.1]), if_pos (by linarith [h.2])]
  · simp only [runHarness, hv, if_true]
    by_cases h1 : (cent edgeFlag measure).sum < 1 + 1 / 1000
    · have h2 : ¬ (1 - 1 / 1000 < (cent edgeFlag measure).sum) := by
        intro hlt
        exact h (abs_sub_lt_iff.mpr ⟨by linarith, by linarith⟩)
      rw [if_pos h1, if_neg h2]
    · rw [if_neg h1]

/-- Witness for C5 at a concrete run: the edge degree measure with a
computed list summing to 1 completes normally. -/
theorem C5_witness :
    validMeasure true "degree" = true ∧
      runHarness "email" "degree" true (fun _ _ => [1]) =
        RunResult.done ("email" ++ " " ++ measureName true "degree")
          ("values/" ++ "email" ++ "/" ++ measureName true "degree" ++ ".npy") :=
  ⟨by decide, (C5_normalization_assert "email" "degree" true (fun _ _ => [1])
      (by decide)).1 (by norm_num [List.sum_cons, List.sum_nil])⟩

/-- Claim C6: for every measure string outside the enumerated set of the
selected target mode, the harness raises an XGIError labelled with the
offending measure string, and the run ends before any timing line or output
file is produced. -/
theorem C6_invalid_measure (dataset measure : String) (edgeFlag : Bool)
    (cent : Bool → String → List Rat)
    (hv : validMeasure edgeFlag measure = false) :
    runHarness dataset measure edgeFlag cent =
        RunResult.xgiError
          (if edgeFlag then "Invalid centrality measure for edge: "
           else "Invalid centrality measure for node: ") measure ∧
      ∀ l f, runHarness dataset measure edgeFlag cent ≠ RunResult.done l f := by
  have hmain : runHarness dataset measure edgeFlag cent =
      RunResult.xgiError
        (if edgeFlag then "Invalid centrality measure for edge: "
         else "Invalid centrality measure for node: ") measure := by
    simp [runHarness, hv]
  refine ⟨hmain, fun l f hcontra => ?_⟩
  rw [hmain] at hcontra
  exact RunResult.noConfusion hcontra

/-- Witness for C6 at a concrete run: the unsupported node measure foo
raises the labelled XGIError naming foo. -/
theorem C6_witness :
    validMeasure false "foo" = false ∧
      runHarness "email" "foo" false (fun _ _ => [1]) =
        RunResult.xgiError "Invalid centrality measure for node: " "foo" := by
  refine ⟨by decide, ?_⟩
  have h := C6_invalid_measure "email" "foo" false (fun _ _ => [1]) (by decide)
  simpa using h.1

/-- Claim C7: for every bunch of edges of net, order with no degree filter
maps every edge e of bunch to the value of size at e minus 1. -/
theorem C7_order_eq_size_sub_one {V : Type} (net : Hypergraph V) (bunch : List Nat)
    (hb : ∀ e ∈ bunch, (List.lookup e net.edge).isSome = true) :
    ∃ mo ms, EdgeStats.order net bunch none = Except.ok mo ∧
      EdgeStats.size net bunch none = Except.ok ms ∧
      ∀ e ∈ bunch, ∃ v : Int, List.lookup e ms = some v ∧
        List.lookup e mo = some (v - 1) := by
  have hb2 : ∀ e ∈ bunch, ∃ mem, List.lookup e net.edge = some mem := by
    intro e he
    exact Option.isSome_iff_exists.mp (hb e he)
  have hfO : ∀ e ∈ bunch, ∃ b, (dictGet net.edge e).map
      (fun mem => (e, (mem.length : Int) - 1)) = Except.ok b := by
    intro e he
    obtain ⟨mem, hmem⟩ := hb2 e he
    exact ⟨(e, (mem.length : Int) - 1), by rw [dictGet_ok.mpr hmem]; rfl⟩
  have hfS : ∀ e ∈ bunch, ∃ b, (dictGet net.edge e).map
      (fun mem => (e, (mem.length : Int))) = Except.ok b := by
    intro e he
    obtain ⟨mem, hmem⟩ := hb2 e he
    exact ⟨(e, (mem.length : Int)), by rw [dictGet_ok.mpr hmem]; rfl⟩
  obtain ⟨mo, hmo⟩ := exceptMap_ok_of_forall hfO
  obtain ⟨ms, hms⟩ := exceptMap_ok_of_forall hfS
  refine ⟨mo, ms, by rw [order_none_def]; exact hmo, by rw [size_none_def]; exact hms, ?_⟩
  intro e he
  obtain ⟨bS, hfs, hls⟩ := exceptMap_ok_lookup (fun e p hp => entry_key hp) hms he
  obtain ⟨bO, hfo, hlo⟩ := exceptMap_ok_lookup (fun e p hp => entry_key hp) hmo he
  rw [except_map_eq_ok] at hfs hfo
  obtain ⟨memS, hmemS, hpS⟩ := hfs
  obtain ⟨memO, hmemO, hpO⟩ := hfo
  rw [dictGet_ok] at hmemS hmemO
  rw [hmemS] at hmemO
  injection hmemO with hmemEq
  subst hmemEq
  injection hpS with hpS1 hpS2
  injection hpO with hpO1 hpO2
  exact ⟨(memS.length : Int), by rw [hls, ← hpS2], by rw [hlo, ← hpO2]⟩

/-- Witness for C7 on the docstring hypergraph with the full edge bunch. -/
theorem C7_witness :
    (∀ e ∈ [0, 1, 2], (List.lookup e exNet.edge).isSome = true) ∧
      (∃ mo ms, EdgeStats.order exNet [0, 1, 2] none = Except.ok mo ∧
        EdgeStats.size exNet [0, 1, 2] none = Except.ok ms ∧
        ∀ e ∈ [0, 1, 2], ∃ v : Int, List.lookup e ms = some v ∧
          List.lookup e mo = some (v - 1)) :=
  ⟨by decide, C7_order_eq_size_sub_one exNet [0, 1, 2] (by decide)⟩

/-- Claim C4: order with no filter maps each edge of bunch to its member
count minus 1; with a degree filter it maps each edge to the count of its
member nodes whose degree equals the filter, minus 1; and on the docstring
hypergraph the unfiltered result maps 0 to 2, 1 to 3 and 2 to 2. -/
theorem C4_order_formula {V : Type} (net : Hypergraph V) (bunch : List Nat)
    (e : Nat) (mem : List Nat) (he : e ∈ bunch)
    (hm : List.lookup e net.edge = some mem) :
    (∀ mo, EdgeStats.order net bunch none = Except.ok mo →
        List.lookup e mo = some ((mem.length : Int) - 1)) ∧
      (∀ d mo, EdgeStats.order net bunch (some d) = Except.ok mo →
        List.lookup e mo = some
          ((mem.countP (fun n =>
            ((List.lookup n net.node).getD []).length == d) : Int) - 1)) ∧
      EdgeStats.order exNet [0, 1, 2] none = Except.ok [(0, 2), (1, 3), (2, 2)] := by
  refine ⟨?_, ?_, by decide⟩
  · intro mo hmo
    rw [order_none_def] at hmo
    obtain ⟨bO, hfo, hlo⟩ := exceptMap_ok_lookup (fun e p hp => entry_key hp) hmo he
    rw [except_map_eq_ok] at hfo
    obtain ⟨mem2, hmem2, hp⟩ := hfo
    rw [dictGet_ok] at hmem2
    rw [hm] at hmem2
    injection hmem2 with hmemEq
    subst hmemEq
    injection hp with hp1 hp2
    rw [hlo, ← hp2]
  · intro d mo hmo
    rw [order_some_def] at hmo
    obtain ⟨bO, hfo, hlo⟩ :=
      exceptMap_ok_lookup (fun e p hp => entry_key_bind hp) hmo he
    rw [except_bind_eq_ok] at hfo
    obtain ⟨mem2, hmem2, hrest⟩ := hfo
    rw [dictGet_ok] at hmem2
    rw [hm] at hmem2
    injection hmem2 with hmemEq
    subst hmemEq
    rw [except_map_eq_ok] at hrest
    obtain ⟨bs, hbs, hp⟩ := hrest
    injection hp with hp1 hp2
    have hsum := degree_filter_sum net d (exceptMap_ok_forall2 hbs)
    rw [hlo, ← hp2, hsum]

/-- Witness for C4 at edge 1 of the docstring hypergraph. -/
theorem C4_witness :
    ((1 : Nat) ∈ [0, 1, 2] ∧ List.lookup 1 exNet.edge = some [2, 3, 4, 5]) ∧
      ((∀ mo, EdgeStats.order exNet [0, 1, 2] none = Except.ok mo →
          List.lookup 1 mo = some (([2, 3, 4, 5].length : Int) - 1)) ∧
        (∀ d mo, EdgeStats.order exNet [0, 1, 2] (some d) = Except.ok mo →
          List.lookup 1 mo = some
            (([2, 3, 4, 5].countP (fun n =>
              ((List.lookup n exNet.node).getD []).length == d) : Int) - 1)) ∧
        EdgeStats.order exNet [0, 1, 2] none =
          Except.ok [(0, 2), (1, 3), (2, 2)]) :=
  ⟨⟨by decide, by decide⟩,
    C4_order_formula exNet [0, 1, 2] 1 [2, 3, 4, 5] (by decide) (by decide)⟩

/-- Claim C8: attrs with a string attribute maps each edge of bunch lacking
the attribute to the missing value and each edge having it to the stored
value; a missing attribute never raises an error. -/
theorem C8_attrs_missing {V : Type} (net : Hypergraph V) (bunch : List Nat)
    (a : String) (M : V)
    (hb : ∀ e ∈ bunch, (List.lookup e net.edgeAttr).isSome = true) :
    ∃ m, EdgeStats.attrs net bunch (AttrArg.str a) M =
        Except.ok (AttrsRet.single m) ∧
      ∀ e ∈ bunch, ∀ d, List.lookup e net.edgeAttr = some d →
        ((List.lookup a d = none → List.lookup e m = some M) ∧
          (∀ v, List.lookup a d = some v → List.lookup e m = some v)) := by
  have hf : ∀ e ∈ bunch, ∃ b, (dictGet net.edgeAttr e).map
      (fun d => (e, (List.lookup a d).getD M)) = Except.ok b := by
    intro e he
    obtain ⟨d, hd⟩ := Option.isSome_iff_exists.mp (hb e he)
    exact ⟨(e, (List.lookup a d).getD M), by rw [dictGet_ok.mpr hd]; rfl⟩
  obtain ⟨m, hm⟩ := exceptMap_ok_of_forall hf
  refine ⟨m, by rw [attrs_str_def, hm]; rfl, ?_⟩
  intro e he d hd
  obtain ⟨b, hfe, hle⟩ := exceptMap_ok_lookup (fun e p hp => entry_key hp) hm he
  rw [except_map_eq_ok] at hfe
  obtain ⟨d2, hd2, hp⟩ := hfe
  rw [dictGet_ok] at hd2
  rw [hd] at hd2
  injection hd2 with hdEq
  subst hdEq
  injection hp with hp1 hp2
  constructor
  · intro hnone
    rw [hle, ← hp2, hnone]
    rfl
  · intro v hv
    rw [hle, ← hp2, hv]
    rfl

/-- Witness for C8 on the two-edge attribute hypergraph: edge 0 has the
color attribute, edge 1 lacks it and receives the missing value 99. -/
theorem C8_witness :
    (∀ e ∈ [0, 1], (List.lookup e exAttrNet.edgeAttr).isSome = true) ∧
      (∃ m, EdgeStats.attrs exAttrNet [0, 1] (AttrArg.str "color") (99 : Nat) =
          Except.ok (AttrsRet.single m) ∧
        ∀ e ∈ [0, 1], ∀ d, List.lookup e exAttrNet.edgeAttr = some d →
          ((List.lookup "color" d = none → List.lookup e m = some 99) ∧
            (∀ v, List.lookup "color" d = some v → List.lookup e m = some v))) :=
  ⟨by decide, C8_attrs_missing exAttrNet [0, 1] "color" 99 (by decide)⟩

/-- Claim C9: attrs raises ValueError exactly when attr is neither None nor
a string: a string attr yields a per-edge single-attribute mapping, None
yields the full records, any other attr raises ValueError without returning
a mapping, and the string and None branches never produce a ValueError. -/
theorem C9_attrs_valueerror {V : Type} (net : Hypergraph V) (bunch : List Nat)
    (M : V) :
    EdgeStats.attrs net bunch AttrArg.other M =
        Except.error (PyErr.valueError "\"attr\" must be str or None") ∧
      (∀ a m, EdgeStats.attrs net bunch (AttrArg.str a) M = Except.ok m →
        ∃ s, m = AttrsRet.single s) ∧
      (∀ m, EdgeStats.attrs net bunch AttrArg.pyNone M = Except.ok m →
        ∃ s, m = AttrsRet.full s) ∧
      (∀ a msg, EdgeStats.attrs net bunch (AttrArg.str a) M ≠
        Except.error (PyErr.valueError msg)) ∧
      (∀ msg, EdgeStats.attrs net bunch AttrArg.pyNone M ≠
        Except.error (PyErr.valueError msg)) := by
  refine ⟨rfl, ?_, ?_, ?_, ?_⟩
  · intro a m h
    rw [attrs_str_def, except_map_eq_ok] at h
    obtain ⟨s, _, hs⟩ := h
    exact ⟨s, hs.symm⟩
  · intro m h
    rw [attrs_pyNone_def, except_map_eq_ok] at h
    obtain ⟨s, _, hs⟩ := h
    exact ⟨s, hs.symm⟩
  · intro a msg h
    rw [attrs_str_def, except_map_eq_error] at h
    obtain ⟨y, _, hy⟩ := exceptMap_error_mem h
    rw [except_map_eq_error] at hy
    exact PyErr.noConfusion (dictGet_error hy)
  · intro msg h
    rw [attrs_pyNone_def, except_map_eq_error] at h
    obtain ⟨y, _, hy⟩ := exceptMap_error_mem h
    rw [except_map_eq_error] at hy
    exact PyErr.noConfusion (dictGet_error hy)

theorem member_scan_error_shape {V : Type} {net : Hypergraph V} {d : Nat} {y : Nat}
    {γ : Type} {g2 : List Int → γ} {err : PyErr}
    (h : (dictGet net.edge y).bind (fun mem =>
        (exceptMap (fun n => (dictGet net.node n).map
          (fun inc => if inc.length = d then (1 : Int) else 0)) mem).map
          g2) = Except.error err) :
    ∃ k, err = PyErr.keyError k := by
  rw [except_bind_eq_error] at h
  rcases h with h | ⟨mem, _, h⟩
  · exact ⟨y, dictGet_error h⟩
  · rw [except_map_eq_error] at h
    obtain ⟨n, _, hn⟩ := exceptMap_error_mem h
    rw [except_map_eq_error] at hn
    exact ⟨n, dictGet_error hn⟩

theorem edgeAttr_lookup_none {V : Type} {net : Hypergraph V} {b : Nat}
    (hnot : List.lookup b net.edge = none)
    (hattr : net.edgeAttr.map Prod.fst = net.edge.map Prod.fst) :
    List.lookup b net.edgeAttr = none := by
  apply lookup_none_of_not_mem_fst
  rw [hattr]
  intro hmem
  obtain ⟨v, hv⟩ := lookup_isSome_of_mem_fst hmem
  rw [hnot] at hv
  exact Option.noConfusion hv

theorem attrs_str_keyerror {V : Type} {net : Hypergraph V} {bunch : List Nat}
    {b : Nat} (hbm : b ∈ bunch) (hnotA : List.lookup b net.edgeAttr = none)
    (a : String) (M : V) :
    ∃ k, EdgeStats.attrs net bunch (AttrArg.str a) M =
      Except.error (PyErr.keyError k) := by
  have hdgA : dictGet net.edgeAttr b = Except.error (PyErr.keyError b) :=
    dictGet_error_of_lookup_none hnotA
  obtain ⟨err, herr, y, hy, hfy⟩ := exceptMap_not_ok
    (fun e => (dictGet net.edgeAttr e).map
      (fun d => (e, (List.lookup a d).getD M))) hbm
    (by intro bb hcontra
        simp [hdgA, Except.map] at hcontra)
  rw [except_map_eq_error] at hfy
  refine ⟨y, ?_⟩
  rw [attrs_str_def, except_map_eq_error, herr, dictGet_error hfy]

theorem attrs_pyNone_keyerror {V : Type} {net : Hypergraph V} {bunch : List Nat}
    {b : Nat} (hbm : b ∈ bunch) (hnotA : List.lookup b net.edgeAttr = none)
    (M : V) :
    ∃ k, EdgeStats.attrs net bunch AttrArg.pyNone M =
      Except.error (PyErr.keyError k) := by
  have hdgA : dictGet net.edgeAttr b = Except.error (PyErr.keyError b) :=
    dictGet_error_of_lookup_none hnotA
  obtain ⟨err, herr, y, hy, hfy⟩ := exceptMap_not_ok
    (fun e => (dictGet net.edgeAttr e).map (fun d => (e, d))) hbm
    (by intro bb hcontra
        simp [hdgA, Except.map] at hcontra)
  rw [except_map_eq_error] at hfy
  refine ⟨y, ?_⟩
  rw [attrs_pyNone_def, except_map_eq_error, herr, dictGet_error hfy]

theorem order_keyerror {V : Type} {net : Hypergraph V} {bunch : List Nat}
    {b : Nat} (hbm : b ∈ bunch) (hnot : List.lookup b net.edge = none)
    (dg : Option Nat) :
    ∃ k, EdgeStats.order net bunch dg = Except.error (PyErr.keyError k) := by
  have hdgE : dictGet net.edge b = Except.error (PyErr.keyError b) :=
    dictGet_error_of_lookup_none hnot
  cases dg with
  | none =>
    obtain ⟨err, herr, y, hy, hfy⟩ := exceptMap_not_ok
      (fun e => (dictGet net.edge e).map
        (fun mem => (e, (mem.length : Int) - 1))) hbm
      (by intro bb hcontra
          simp [hdgE, Except.map] at hcontra)
    rw [except_map_eq_error] at hfy
    refine ⟨y, ?_⟩
    rw [order_none_def, herr, dictGet_error hfy]
  | some d =>
    obtain ⟨err, herr, y, hy, hfy⟩ := exceptMap_not_ok
      (fun e => (dictGet net.edge e).bind (fun mem =>
        (exceptMap (fun n => (dictGet net.node n).map
          (fun inc => if inc.length = d then (1 : Int) else 0)) mem).map
          (fun bs => (e, bs.sum - 1)))) hbm
      (by intro bb hcontra
          simp [hdgE, Except.bind] at hcontra)
    obtain ⟨k, hk⟩ := member_scan_error_shape hfy
    refine ⟨k, ?_⟩
    rw [order_some_def, herr, hk]

theorem size_keyerror {V : Type} {net : Hypergraph V} {bunch : List Nat}
    {b : Nat} (hbm : b ∈ bunch) (hnot : List.lookup b net.edge = none)
    (dg : Option Nat) :
    ∃ k, EdgeStats.size net bunch dg = Except.error (PyErr.keyError k) := by
  have hdgE : dictGet net.edge b = Except.error (PyErr.keyError b) :=
    dictGet_error_of_lookup_none hnot
  cases dg with
  | none =>
    obtain ⟨err, herr, y, hy, hfy⟩ := exceptMap_not_ok
      (fun e => (dictGet net.edge e).map
        (fun mem => (e, (mem.length : Int)))) hbm
      (by intro bb hcontra
          simp [hdgE, Except.map] at hcontra)
    rw [except_map_eq_error] at hfy
    refine ⟨y, ?_⟩
    rw [size_none_def, herr, dictGet_error hfy]
  | some d =>
    obtain ⟨err, herr, y, hy, hfy⟩ := exceptMap_not_ok
      (fun e => (dictGet net.edge e).bind (fun mem =>
        (exceptMap (fun n => (dictGet net.node n).map
          (fun inc => if inc.length = d then (1 : Int) else 0)) mem).map
          (fun bs => (e, bs.sum)))) hbm
      (by intro bb hcontra
          simp [hdgE, Except.bind] at hcontra)
    obtain ⟨k, hk⟩ := member_scan_error_shape hfy
    refine ⟨k, ?_⟩
    rw [size_some_def, herr, hk]

/-- Claim C10: attrs, order and size require every id of bunch to be an
edge of net: a bunch containing a non-edge id makes each of them raise
KeyError rather than skipping the id, while the filtering used by every
centrality accessor silently drops ids of bunch that are absent from the
computed mapping. -/
theorem C10_bunch_keyerror {V : Type} (net : Hypergraph V) (bunch : List Nat)
    (b : Nat) (hbm : b ∈ bunch) (hnot : List.lookup b net.edge = none)
    (hattr : net.edgeAttr.map Prod.fst = net.edge.map Prod.fst)
    (M : V) (a : String) :
    (∃ k, EdgeStats.attrs net bunch (AttrArg.str a) M =
        Except.error (PyErr.keyError k)) ∧
      (∃ k, EdgeStats.attrs net bunch AttrArg.pyNone M =
        Except.error (PyErr.keyError k)) ∧
      (∀ dg, ∃ k, EdgeStats.order net bunch dg =
        Except.error (PyErr.keyError k)) ∧
      (∀ dg, ∃ k, EdgeStats.size net bunch dg =
        Except.error (PyErr.keyError k)) ∧
      (∀ (R : Type) (c : List (Nat × R)), b ∉ c.map Prod.fst →
        List.lookup b (restrict c bunch) = none) := by
  have hnmA : List.lookup b net.edgeAttr = none := edgeAttr_lookup_none hnot hattr
  exact ⟨attrs_str_keyerror hbm hnmA a M, attrs_pyNone_keyerror hbm hnmA M,
    fun dg => order_keyerror hbm hnot dg, fun dg => size_keyerror hbm hnot dg,
    fun R c hc => restrict_lookup_none c bunch hc⟩

/-- Witness for C10 on the docstring hypergraph with the bunch containing
the non-edge id 5. -/
theorem C10_witness :
    ((5 : Nat) ∈ [0, 5] ∧ List.lookup 5 exNet.edge = none ∧
      exNet.edgeAttr.map Prod.fst = exNet.edge.map Prod.fst) ∧
      ((∃ k, EdgeStats.attrs exNet [0, 5] (AttrArg.str "color") (0 : Nat) =
          Except.error (PyErr.keyError k)) ∧
        (∃ k, EdgeStats.attrs exNet [0, 5] AttrArg.pyNone (0 : Nat) =
          Except.error (PyErr.keyError k)) ∧
        (∀ dg, ∃ k, EdgeStats.order exNet [0, 5] dg =
          Except.error (PyErr.keyError k)) ∧
        (∀ dg, ∃ k, EdgeStats.size exNet [0, 5] dg =
          Except.error (PyErr.keyError k)) ∧
        (∀ (R : Type) (c : List (Nat × R)), 5 ∉ c.map Prod.fst →
          List.lookup 5 (restrict c [0, 5]) = none)) :=
  ⟨⟨by decide, by decide, by decide⟩,
    C10_bunch_keyerror exNet [0, 5] 5 (by decide) (by decide) (by decide) 0 "color"⟩

/-- Claim C2 as stated is false at a concrete input: on the docstring
hypergraph, the bunch holding only the non-edge id 5 makes attrs raise
KeyError instead of returning the mapping whose key set is the intersection
of the bunch with the edge ids, which is empty here since 5 is not an
edge. -/
theorem C2_counterexample :
    EdgeStats.attrs exNet [5] AttrArg.pyNone (0 : Nat) =
        Except.error (PyErr.keyError 5) ∧
      List.lookup 5 exNet.edge = none := by
  constructor <;> decide

/-- Claim C2 amended: for every centrality accessor and every bunch, the key
set of the returned mapping is the intersection of bunch with the key set of
the externally computed mapping; for attrs, order and size the same holds
for every bunch whose ids are all edges of net (the key set is then exactly
bunch), while a bunch holding a non-edge id makes them raise KeyError
instead of returning a mapping. -/
theorem C2_keys_intersection {V R : Type} (lib : XgiLib V R) (net : Hypergraph V)
    (bunch : List Nat) (f g phi psi : Rat → Rat) (alpha tol : Rat)
    (max_iter : Nat) (a : String) (M : V) :
    (∀ k, k ∈ (EdgeStats.node_edge_centrality lib net bunch f g phi psi
        max_iter tol).map Prod.fst ↔ k ∈ bunch ∧
        k ∈ (lib.node_edge_centrality net f g phi psi max_iter tol).2.map
          Prod.fst) ∧
      (∀ k, k ∈ (EdgeStats.degree_centrality lib net bunch).map Prod.fst ↔
        k ∈ bunch ∧
        k ∈ (lib.degree_centrality net (some Target.edge)).map Prod.fst) ∧
      (∀ k, k ∈ (EdgeStats.line_expansion_degree_centrality lib net bunch).map
          Prod.fst ↔ k ∈ bunch ∧
        k ∈ (lib.line_expansion_degree_centrality net).map Prod.fst) ∧
      (∀ k, k ∈ (EdgeStats.closeness_centrality lib net bunch).map Prod.fst ↔
        k ∈ bunch ∧
        k ∈ (lib.closeness_centrality net (some Target.edge)).map Prod.fst) ∧
      (∀ k, k ∈ (EdgeStats.betweenness_centrality lib net bunch).map Prod.fst ↔
        k ∈ bunch ∧
        k ∈ (lib.betweenness_centrality net (some Target.edge)).map Prod.fst) ∧
      (∀ k, k ∈ (EdgeStats.harmonic_centrality lib net bunch).map Prod.fst ↔
        k ∈ bunch ∧
        k ∈ (lib.harmonic_centrality net (some Target.edge)).map Prod.fst) ∧
      (∀ k, k ∈ (EdgeStats.eigenvector_centrality lib net bunch max_iter
          tol).map Prod.fst ↔ k ∈ bunch ∧
        k ∈ (lib.eigenvector_centrality net (some Target.edge) max_iter
          tol).map Prod.fst) ∧
      (∀ k, k ∈ (EdgeStats.pagerank_centrality lib net bunch alpha max_iter
          tol).map Prod.fst ↔ k ∈ bunch ∧
        k ∈ (lib.eigenvector_centrality net (some Target.edge) max_iter
          tol).map Prod.fst) ∧
      (∀ k, k ∈ (EdgeStats.hypercoreness lib net bunch).map Prod.fst ↔
        k ∈ bunch ∧
        k ∈ (lib.hypercoreness net (some Target.edge)).map Prod.fst) ∧
      ((∀ e ∈ bunch, (List.lookup e net.edge).isSome = true) →
        net.edgeAttr.map Prod.fst = net.edge.map Prod.fst →
        (∀ p ∈ net.edge, ∀ n ∈ p.2, (List.lookup n net.node).isSome = true) →
        (∃ m, EdgeStats.attrs net bunch (AttrArg.str a) M =
            Except.ok (AttrsRet.single m) ∧
          ∀ k, k ∈ m.map Prod.fst ↔ k ∈ bunch ∧ k ∈ net.edge.map Prod.fst) ∧
        (∃ m, EdgeStats.attrs net bunch AttrArg.pyNone M =
            Except.ok (AttrsRet.full m) ∧
          ∀ k, k ∈ m.map Prod.fst ↔ k ∈ bunch ∧ k ∈ net.edge.map Prod.fst) ∧
        (∀ dg, ∃ m, EdgeStats.order net bunch dg = Except.ok m ∧
          ∀ k, k ∈ m.map Prod.fst ↔ k ∈ bunch ∧ k ∈ net.edge.map Prod.fst) ∧
        (∀ dg, ∃ m, EdgeStats.size net bunch dg = Except.ok m ∧
          ∀ k, k ∈ m.map Prod.fst ↔ k ∈ bunch ∧ k ∈ net.edge.map Prod.fst)) ∧
      (∀ b ∈ bunch, List.lookup b net.edge = none →
        net.edgeAttr.map Prod.fst = net.edge.map Prod.fst →
        (∃ k, EdgeStats.attrs net bunch (AttrArg.str a) M =
          Except.error (PyErr.keyError k)) ∧
        (∃ k, EdgeStats.attrs net bunch AttrArg.pyNone M =
          Except.error (PyErr.keyError k)) ∧
        (∀ dg, ∃ k, EdgeStats.order net bunch dg =
          Except.error (PyErr.keyError k)) ∧
        (∀ dg, ∃ k, EdgeStats.size net bunch dg =
          Except.error (PyErr.keyError k))) := by
  refine ⟨fun k => restrict_keys
      ((lib.node_edge_centrality net f g phi psi max_iter tol).2) bunch k,
    fun k => restrict_keys (lib.degree_centrality net (some Target.edge)) bunch k,
    fun k => restrict_keys (lib.line_expansion_degree_centrality net) bunch k,
    fun k => restrict_keys (lib.closeness_centrality net (some Target.edge)) bunch k,
    fun k => restrict_keys (lib.betweenness_centrality net (some Target.edge)) bunch k,
    fun k => restrict_keys (lib.harmonic_centrality net (some Target.edge)) bunch k,
    fun k => restrict_keys
      (lib.eigenvector_centrality net (some Target.edge) max_iter tol) bunch k,
    fun k => restrict_keys
      (lib.eigenvector_centrality net (some Target.edge) max_iter tol) bunch k,
    fun k => restrict_keys (lib.hypercoreness net (some Target.edge)) bunch k,
    ?_, ?_⟩
  · intro hb hattr hwf
    have hsub : ∀ k ∈ bunch, k ∈ net.edge.map Prod.fst := by
      intro k hk
      obtain ⟨v, hv⟩ := Option.isSome_iff_exists.mp (hb k hk)
      exact lookup_some_mem_fst hv
    have gen : ∀ {β : Type} (f2 : Nat → Except PyErr (Nat × β)),
        (∀ e p, f2 e = Except.ok p → p.1 = e) →
        (∀ e ∈ bunch, ∃ b, f2 e = Except.ok b) →
        ∃ m, exceptMap f2 bunch = Except.ok m ∧
          ∀ k, k ∈ m.map Prod.fst ↔ k ∈ bunch ∧ k ∈ net.edge.map Prod.fst := by
      intro β f2 hkey hok
      obtain ⟨m, hm⟩ := exceptMap_ok_of_forall hok
      refine ⟨m, hm, fun k => ?_⟩
      rw [exceptMap_ok_keys hkey hm]
      exact ⟨fun hk => ⟨hk, hsub k hk⟩, fun hk => hk.1⟩
    have hinner : ∀ (d : Nat), ∀ e mem, List.lookup e net.edge = some mem →
        ∃ bs, exceptMap (fun n => (dictGet net.node n).map
          (fun inc => if inc.length = d then (1 : Int) else 0)) mem =
          Except.ok bs := by
      intro d e mem hmem
      apply exceptMap_ok_of_forall
      intro n hn
      obtain ⟨inc, hincl⟩ := Option.isSome_iff_exists.mp
        (hwf (e, mem) (lookup_some_pair_mem hmem) n hn)
      exact ⟨if inc.length = d then (1 : Int) else 0, by rw [dictGet_ok.mpr hincl]; rfl⟩
    refine ⟨?_, ?_, ?_, ?_⟩
    · obtain ⟨m, hm, hkeys⟩ := gen (fun e => (dictGet net.edgeAttr e).map
          (fun d => (e, (List.lookup a d).getD M)))
        (by
          intro e p hp
          beta_reduce at hp
          exact entry_key hp)
        (by intro e he
            have hemem : e ∈ net.edgeAttr.map Prod.fst := by
              rw [hattr]
              exact hsub e he
            obtain ⟨d, hd⟩ := lookup_isSome_of_mem_fst hemem
            exact ⟨(e, (List.lookup a d).getD M), by
              beta_reduce
              rw [dictGet_ok.mpr hd]
              rfl⟩)
      exact ⟨m, by rw [attrs_str_def, hm]; rfl, hkeys⟩
    · obtain ⟨m, hm, hkeys⟩ := gen (fun e => (dictGet net.edgeAttr e).map
          (fun d => (e, d)))
        (by
          intro e p hp
          beta_reduce at hp
          exact entry_key hp)
        (by intro e he
            have hemem : e ∈ net.edgeAttr.map Prod.fst := by
              rw [hattr]
              exact hsub e he
            obtain ⟨d, hd⟩ := lookup_isSome_of_mem_fst hemem
            exact ⟨(e, d), by
              beta_reduce
              rw [dictGet_ok.mpr hd]
              rfl⟩)
      exact ⟨m, by rw [attrs_pyNone_def, hm]; rfl, hkeys⟩
    · intro dg
      cases dg with
      | none =>
        obtain ⟨m, hm, hkeys⟩ := gen (fun e => (dictGet net.edge e).map
            (fun mem => (e, (mem.length : Int) - 1)))
          (by
            intro e p hp
            beta_reduce at hp
            exact entry_key hp)
          (by intro e he
              obtain ⟨mem, hmem⟩ := Option.isSome_iff_exists.mp (hb e he)
              exact ⟨(e, (mem.length : Int) - 1), by
                beta_reduce
                rw [dictGet_ok.mpr hmem]
                rfl⟩)
        exact ⟨m, by rw [order_none_def]; exact hm, hkeys⟩
      | some d =>
        obtain ⟨m, hm, hkeys⟩ := gen (fun e => (dictGet net.edge e).bind (fun mem =>
            (exceptMap (fun n => (dictGet net.node n).map
              (fun inc => if inc.length = d then (1 : Int) else 0)) mem).map
              (fun bs => (e, bs.sum - 1))))
          (by
            intro e p hp
            beta_reduce at hp
            exact entry_key_bind hp)
          (by intro e he
              obtain ⟨mem, hmem⟩ := Option.isSome_iff_exists.mp (hb e he)
              obtain ⟨bs, hbs⟩ := hinner d e mem hmem
              refine ⟨(e, bs.sum - 1), ?_⟩
              beta_reduce
              rw [dictGet_ok.mpr hmem]
              simp only [Except.bind]
              rw [hbs]
              rfl)
        exact ⟨m, by rw [order_some_def]; exact hm, hkeys⟩
    · intro dg
      cases dg with
      | none =>
        obtain ⟨m, hm, hkeys⟩ := gen (fun e => (dictGet net.edge e).map
            (fun mem => (e, (mem.length : Int))))
          (by
            intro e p hp
            beta_reduce at hp
            exact entry_key hp)
          (by intro e he
              obtain ⟨mem, hmem⟩ := Option.isSome_iff_exists.mp (hb e he)
              exact ⟨(e, (mem.length : Int)), by
                beta_reduce
                rw [dictGet_ok.mpr hmem]
                rfl⟩)
        exact ⟨m, by rw [size_none_def]; exact hm, hkeys⟩
      | some d =>
        obtain ⟨m, hm, hkeys⟩ := gen (fun e => (dictGet net.edge e).bind (fun mem =>
            (exceptMap (fun n => (dictGet net.node n).map
              (fun inc => if inc.length = d then (1 : Int) else 0)) mem).map
              (fun bs => (e, bs.sum))))
          (by
            intro e p hp
            beta_reduce at hp
            exact entry_key_bind hp)
          (by intro e he
              obtain ⟨mem, hmem⟩ := Option.isSome_iff_exists.mp (hb e he)
              obtain ⟨bs, hbs⟩ := hinner d e mem hmem
              refine ⟨(e, bs.sum), ?_⟩
              beta_reduce
              rw [dictGet_ok.mpr hmem]
              simp only [Except.bind]
              rw [hbs]
              rfl)
        exact ⟨m, by rw [size_some_def]; exact hm, hkeys⟩
  · intro b hbm hnot hattr
    have hnmA : List.lookup b net.edgeAttr = none := edgeAttr_lookup_none hnot hattr
    exact ⟨attrs_str_keyerror hbm hnmA a M, attrs_pyNone_keyerror hbm hnmA M,
      fun dg => order_keyerror hbm hnot dg, fun dg => size_keyerror hbm hnot dg⟩

/-- Witness for the amended C2 on the docstring hypergraph and the concrete
library instantiation: the degree key-set property is exercised on the bunch
0, 5 that contains the non-edge id 5, the order success property on the edge
bunch 0, 2, and the KeyError property on the bunch 0, 5 at the id 5. -/
theorem C2_witness :
    ((∀ e ∈ [0, 2], (List.lookup e exNet.edge).isSome = true) ∧
      exNet.edgeAttr.map Prod.fst = exNet.edge.map Prod.fst ∧
      (∀ p ∈ exNet.edge, ∀ n ∈ p.2, (List.lookup n exNet.node).isSome = true) ∧
      (5 : Nat) ∈ [0, 5] ∧ List.lookup 5 exNet.edge = none) ∧
      (∀ k, k ∈ (EdgeStats.degree_centrality cexLib exNet [0, 5]).map Prod.fst ↔
        k ∈ [0, 5] ∧
        k ∈ (cexLib.degree_centrality exNet (some Target.edge)).map Prod.fst) ∧
      (∀ dg, ∃ m, EdgeStats.order exNet [0, 2] dg = Except.ok m ∧
        ∀ k, k ∈ m.map Prod.fst ↔ k ∈ [0, 2] ∧ k ∈ exNet.edge.map Prod.fst) ∧
      ((∃ k, EdgeStats.attrs exNet [0, 5] (AttrArg.str "color") (0 : Nat) =
          Except.error (PyErr.keyError k)) ∧
        (∃ k, EdgeStats.attrs exNet [0, 5] AttrArg.pyNone (0 : Nat) =
          Except.error (PyErr.keyError k)) ∧
        (∀ dg, ∃ k, EdgeStats.order exNet [0, 5] dg =
          Except.error (PyErr.keyError k)) ∧
        (∀ dg, ∃ k, EdgeStats.size exNet [0, 5] dg =
          Except.error (PyErr.keyError k))) := by
  have h05 := C2_keys_intersection cexLib exNet [0, 5] (fun x => x) (fun x => x)
    (fun x => x) (fun x => x) 1 1 1 "color" 0
  have h02 := C2_keys_intersection cexLib exNet [0, 2] (fun x => x) (fun x => x)
    (fun x => x) (fun x => x) 1 1 1 "color" 0
  refine ⟨⟨by decide, by decide, by decide, by decide, by decide⟩, h05.2.1, ?_, ?_⟩
  · exact (h02.2.2.2.2.2.2.2.2.2.1 (by decide) (by decide) (by decide)).2.2.1
  · exact h05.2.2.2.2.2.2.2.2.2.2 5 (by decide) (by decide) (by decide)

end XgiSpec
